import Mathlib

set_option maxRecDepth 16384

/-!
Verification of the routing/orchestration layer of the MultiAgent repository.

The Python source under `src/chat_api/agents_sdk/` is shallowly embedded:

* `intents.py`  — keyword intent detectors over normalized text;
* `helpers.py`  — schedule-field patterns, the plan builder `_build_plan`,
  the prompt builders, `_Orchestrator.dispatch` and `dispatch_message`;
* `runner.py`   — `_TextNormalizer` and `run_with_agents_sdk`.

Python strings are modelled by Lean `String` / `List Char`.  Python's
character classes `\s`, `\w`, `\d` and `str.lower` are modelled over their
ASCII extension (the inputs of this layer are chat text; the token tables
of the source are pure ASCII).  Each regular expression of the source is
embedded as a bespoke executable matcher whose doc comment quotes the
pattern; greedy/backtracking behaviour is resolved statically as explained
at each definition.  The opaque LLM "run" capability
(`agents.Runner.run_sync`) is a parameter `RunCap σ`: a state-passing
function from agent key and input text to output text.
-/

/-- Python `\s` on ASCII: the whitespace class used by `str.strip`,
`str.split` and the `\s` escapes of the embedded regexes. -/
def pySpace (c : Char) : Bool :=
  c == ' ' || c == '\t' || c == '\n' || c == '\r' || c == '\x0b' || c == '\x0c'

/-- Python `\w` on ASCII: letters, digits and underscore. -/
def isWordChar (c : Char) : Bool :=
  c.isAlphanum || c == '_'

/-- Python `str.lower` (ASCII model). -/
def pyLower (s : String) : String :=
  ⟨s.data.map Char.toLower⟩

/-- Python `str.strip` on a character list: drop leading and trailing
whitespace. -/
def pyStripL (l : List Char) : List Char :=
  (((l.dropWhile pySpace).reverse.dropWhile pySpace).reverse)

/-- Python `str.strip`. -/
def pyStrip (s : String) : String :=
  ⟨pyStripL s.data⟩

/-- Python `str.split()` (no separator), with the word under construction
accumulated in reverse: whitespace-delimited words, empty words
discarded. -/
def pyWordsAux : List Char → List Char → List (List Char)
  | acc, [] => if acc.isEmpty then [] else [acc.reverse]
  | acc, c :: cs =>
    if pySpace c then
      (if acc.isEmpty then pyWordsAux [] cs else acc.reverse :: pyWordsAux [] cs)
    else pyWordsAux (c :: acc) cs

/-- Python `str.split()` (no separator). -/
def pyWords (l : List Char) : List (List Char) :=
  pyWordsAux [] l

/-- Python substring test `needle in hay` on character lists. -/
def containsSub (needle : List Char) : List Char → Bool
  | [] => needle.isEmpty
  | c :: cs => needle.isPrefixOf (c :: cs) || containsSub needle cs

/-- Python substring test `needle in hay` on strings. -/
def strContains (hay needle : String) : Bool :=
  containsSub needle.data hay.data

/-- `intents._norm`: `" ".join((text or "").strip().lower().split())`. -/
def pyNorm (text : String) : String :=
  String.intercalate " " ((pyWords (pyLower (pyStrip text)).data).map (⟨·⟩))

/-- `intents._matches`: some token occurs as a substring of the normalized
text. -/
def intentMatches (tokens : List String) (text : String) : Bool :=
  tokens.any (fun k => strContains (pyNorm text) k)

/-- `intents._SUMMARY_TOKENS`. -/
def _SUMMARY_TOKENS : List String :=
  ["summarize", "summarise", "in one sentence", "in 1 sentence",
   "one sentence", "short summary", "concise summary"]

/-- `intents.has_summary_intent`. -/
def has_summary_intent (text : String) : Bool :=
  intentMatches _SUMMARY_TOKENS text

/-- `intents._COURSE_TOKENS`. -/
def _COURSE_TOKENS : List String :=
  ["course", "courses", "class", "classes",
   "elective", "electives", "curriculum", "advisor", "track",
   "major", "minor", "prereq", "prereqs", "prerequisite", "prerequisites",
   "credit", "credits", "unit", "units",
   "requirement", "requirements", "eligibility",
   "degree plan", "graduation requirements"]

/-- `intents.has_course_intent`. -/
def has_course_intent (text : String) : Bool :=
  intentMatches _COURSE_TOKENS text

/-- `intents._SCHEDULE_TOKENS`. -/
def _SCHEDULE_TOKENS : List String :=
  ["when", "date", "time", "schedule", "deadline", "window", "period",
   "term start", "start of term", "timetable", "calendar",
   "add/drop", "add drop", "census date",
   "midterm", "midterms", "final", "finals",
   "exam", "exams", "examination", "examinations",
   "graduation ceremony", "convocation"]

/-- `intents.has_schedule_intent`. -/
def has_schedule_intent (text : String) : Bool :=
  intentMatches _SCHEDULE_TOKENS text

/-- `intents._POEM_TOKENS`. -/
def _POEM_TOKENS : List String :=
  ["poem", "poems", "haiku", "poetry", "write a poem", "write poem",
   "verse", "limerick"]

/-- `intents.has_poem_intent`. -/
def has_poem_intent (text : String) : Bool :=
  intentMatches _POEM_TOKENS text

/-- `intents._CAMPUS_MARKERS`. -/
def _CAMPUS_MARKERS : List String :=
  ["campus", "student life", "students", "social life",
   "dorm", "dorms", "dormitory", "hostel", "residence hall",
   "library", "libraries", "quad", "student union",
   "cafeteria", "canteen", "mess", "coffee shop", "cafe", "café",
   "club", "clubs", "society", "societies",
   "lecture hall", "classroom", "classrooms",
   "lab", "labs", "hallway",
   "late-night", "late night", "study", "study sessions",
   "orientation", "orientation week", "welcome week", "freshers",
   "freshers week", "orientation day", "club fair",
   "exam", "exams", "midterm", "midterms", "final", "finals",
   "fest", "fests", "festival", "festivals",
   "hackathon", "hackathons", "tech fest", "cultural fest",
   "career fair", "job fair", "meetup", "meetups"]

/-- `intents.poem_is_campus`. -/
def poem_is_campus (text : String) : Bool :=
  intentMatches _CAMPUS_MARKERS text

/-!
### Regex embeddings from `helpers.py`

Every pattern below is an alternation of word-character-delimited literals
(possibly with `\s*` / optional-character holes).  `re.search` succeeds iff
some alternative matches at some position; for such patterns greedy
backtracking never changes *whether* a match exists, so each matcher tests
an explicit per-position condition at every candidate position.  A leading
`\b` before an alternative that starts with a word character holds iff the
preceding character is absent or not a word character; a trailing `\b`
after a word character holds iff the next character is absent or not a
word character.
-/

/-- `\b` before a word character: previous character absent or non-word. -/
def boundaryBefore : Option Char → Bool
  | none => true
  | some c => !isWordChar c

/-- `\b` after a word character: next character absent or non-word. -/
def boundaryAfter : List Char → Bool
  | [] => true
  | c :: _ => !isWordChar c

/-- Literal token followed by a trailing `\b`. -/
def wordHit (tok : List Char) (l : List Char) : Bool :=
  tok.isPrefixOf l && boundaryAfter (l.drop tok.length)

/-- Search a per-position matcher at every position whose preceding
character satisfies `\b` (models `re.search` on a `\b`-led alternation;
`prev` is the character before the current position). -/
def scanBoundary (hit : List Char → Bool) : Option Char → List Char → Bool
  | prev, l =>
    (boundaryBefore prev && hit l) ||
      match l with
      | [] => false
      | c :: cs => scanBoundary hit (some c) cs

/-- Search a per-position matcher at every position (no leading `\b`). -/
def scanAny (hit : List Char → Bool) : List Char → Bool
  | [] => hit []
  | c :: cs => hit (c :: cs) || scanAny hit cs

/-- Word-bounded literal alternation `\b(t₁|…|tₙ)\b`. -/
def wordTokenSearch (toks : List String) (l : List Char) : Bool :=
  scanBoundary (fun s => toks.any (fun t => wordHit t.data s)) none l

/-- `_PATTERNS_TO_FIELDS` entry 1: `\b(midterm|midterms)\b` (re.I). -/
def patMidterm (t : List Char) : Bool :=
  wordTokenSearch ["midterm", "midterms"] t

/-- `_PATTERNS_TO_FIELDS` entry 2: `\b(final|finals)\b` (re.I). -/
def patFinal (t : List Char) : Bool :=
  wordTokenSearch ["final", "finals"] t

/-- `_PATTERNS_TO_FIELDS` entry 3: `\bexam(s)?\b` (re.I). -/
def patExam (t : List Char) : Bool :=
  wordTokenSearch ["exam", "exams"] t

/-- First branch of `_PATTERNS_TO_FIELDS` entry 4, after the leading `\b`:
`add\s*/?\s*drop\b` — "add", a whitespace run, an optional `/`, another
whitespace run, then "drop" with a trailing boundary. -/
def addDropSlackHit (l : List Char) : Bool :=
  "add".data.isPrefixOf l &&
    (let r := (l.drop 3).dropWhile pySpace
     let r := match r with
       | '/' :: rr => rr
       | _ => r
     wordHit "drop".data (r.dropWhile pySpace))

/-- `_PATTERNS_TO_FIELDS` entry 4:
`\badd\s*/?\s*drop\b|add[- ]drop\b|adddrop\b` (re.I).  The second and
third branches carry no leading `\b`. -/
def patAddDrop (t : List Char) : Bool :=
  scanBoundary addDropSlackHit none t ||
  scanAny (fun l =>
    "add".data.isPrefixOf l &&
      (match l.drop 3 with
       | c :: rest => (c == '-' || c == ' ') && wordHit "drop".data rest
       | [] => false)) t ||
  scanAny (fun l => wordHit "adddrop".data l) t

/-- Inner search of `term\b.*\bstart` / `start\b.*\bterm`: find `w` with a
`\b` on both sides, scanning only characters the non-newline `.*` can
consume; `prev` is the character preceding the current position. -/
def boundedWordInLine (w : List Char) : Char → List Char → Bool
  | prev, l =>
    (!isWordChar prev && wordHit w l) ||
      match l with
      | [] => false
      | c :: cs => if c == '\n' then false else boundedWordInLine w c cs

/-- `term\b.*\bstart`-shaped branch: `a`, a non-word non-newline character,
then `b` word-bounded further along the same line.  (The `\b` after `a`
forces the first `.*` character to be non-word, and `.` excludes
newlines.) -/
def wordGapHit (a b : List Char) (l : List Char) : Bool :=
  a.isPrefixOf l &&
    (match l.drop a.length with
     | [] => false
     | c :: cs => !isWordChar c && c != '\n' && boundedWordInLine b c cs)

/-- `_PATTERNS_TO_FIELDS` entry 5:
`\b(term\s*start|term\b.*\bstart|start\b.*\bterm)\b` (re.I). -/
def patTermStart (t : List Char) : Bool :=
  scanBoundary (fun l =>
    ("term".data.isPrefixOf l && wordHit "start".data ((l.drop 4).dropWhile pySpace)) ||
    wordGapHit "term".data "start".data l ||
    wordGapHit "start".data "term".data l) none t

/-- `_PATTERNS_TO_FIELDS` entry 6:
`\b(graduation\s+ceremony|convocation|ceremony)\b` (re.I). -/
def patGraduation (t : List Char) : Bool :=
  scanBoundary (fun l =>
    ("graduation".data.isPrefixOf l &&
      (match l.drop 10 with
       | c :: cs => pySpace c && wordHit "ceremony".data (cs.dropWhile pySpace)
       | [] => false)) ||
    wordHit "convocation".data l ||
    wordHit "ceremony".data l) none t

/-- `_PATTERNS_TO_FIELDS` entry 7:
`\bclass\s*times?\b|\bclass\s*timings?\b|\bclass\s*hours?\b` (re.I). -/
def patClassTimes (t : List Char) : Bool :=
  scanBoundary (fun l =>
    "class".data.isPrefixOf l &&
      (let r := (l.drop 5).dropWhile pySpace
       ["time", "times", "timing", "timings", "hour", "hours"].any
         (fun w => wordHit w.data r))) none t

/-- `helpers._PATTERNS_TO_FIELDS`: the ordered pattern → canonical-field
table. -/
def _PATTERNS_TO_FIELDS : List ((List Char → Bool) × String) :=
  [(patMidterm, "midterms_window"),
   (patFinal, "finals_window"),
   (patExam, "finals_window"),
   (patAddDrop, "add_drop_deadline"),
   (patTermStart, "term_start"),
   (patGraduation, "graduation_ceremony"),
   (patClassTimes, "class_times")]

/-- `_Orchestrator._requested_schedule_fields`: lowercase the message and
collect the canonical field of every matching pattern, in table order. -/
def requested_schedule_fields (msg : String) : List String :=
  let text := (pyLower msg).data
  (_PATTERNS_TO_FIELDS.filter (fun pf => pf.1 text)).map (fun pf => pf.2)

/-- `helpers._SPECIFIC_DAY` ISO-date branch: `\d{4}-\d{2}-\d{2}` with `\b`
on both sides (leading `\b` supplied by the enclosing scan). -/
def isoDateHit (l : List Char) : Bool :=
  match l with
  | a :: b :: c :: d :: '-' :: e :: f :: '-' :: g :: h :: rest =>
    a.isDigit && b.isDigit && c.isDigit && d.isDigit &&
    e.isDigit && f.isDigit && g.isDigit && h.isDigit && boundaryAfter rest
  | _ => false

/-- `helpers._SPECIFIC_DAY`:
`\b(today|tomorrow|day after tomorrow|\d{4}-\d{2}-\d{2})\b` (re.I),
searched on the lowercased message. -/
def specificDaySearch (t : List Char) : Bool :=
  scanBoundary (fun l =>
    ["today", "tomorrow", "day after tomorrow"].any (fun w => wordHit w.data l) ||
    isoDateHit l) none t

/-- ASCII uppercase letter (`[A-Z]`). -/
def isUpperAZ (c : Char) : Bool :=
  'A' ≤ c && c ≤ 'Z'

/-- One width choice of `[A-Z]{2,4}\d{3}\b`: exactly `k` uppercase letters
then three digits then a trailing boundary. -/
def courseCodeTry (k : Nat) (l : List Char) : Bool :=
  (l.take k).length == k && (l.take k).all isUpperAZ &&
    (match l.drop k with
     | a :: b :: c :: rest => a.isDigit && b.isDigit && c.isDigit && boundaryAfter rest
     | _ => false)

/-- `helpers._COURSE_CODE`: `\b[A-Z]{2,4}\d{3}\b`, case-sensitive, searched
on the raw message.  A match exists iff it exists for some fixed width
`k ∈ {2,3,4}`. -/
def courseCodeSearch (t : List Char) : Bool :=
  scanBoundary (fun l => courseCodeTry 2 l || courseCodeTry 3 l || courseCodeTry 4 l) none t

/-- `helpers._CLASS_SCHEDULE_PHRASE`:
`\bclass schedule\b|\bschedule for\b` (re.I), searched on the lowercased
message. -/
def classSchedulePhraseSearch (t : List Char) : Bool :=
  wordTokenSearch ["class schedule", "schedule for"] t

/-- Literal alternatives of `helpers._EXPLICIT_TIME_ASK` (the `?`-suffixed
forms expanded into both spellings; `add/?\s*drop` is handled apart). -/
def explicitTimeAskToks : List String :=
  ["when", "what time", "what times", "what date", "what dates",
   "date", "dates", "time", "times", "schedule", "schedules",
   "deadline", "deadlines", "window", "windows", "period", "periods",
   "timetable", "calendar", "census date", "start of term", "term start"]

/-- `add/?\s*drop` branch of `_EXPLICIT_TIME_ASK`: "add", an optional `/`,
a whitespace run, then "drop" with a trailing boundary. -/
def addDropAskHit (l : List Char) : Bool :=
  "add".data.isPrefixOf l &&
    (let r := l.drop 3
     let r := match r with
       | '/' :: rr => rr
       | _ => r
     wordHit "drop".data (r.dropWhile pySpace))

/-- `helpers._EXPLICIT_TIME_ASK` (re.I), searched on the lowercased raw
message: the broad interrogative/temporal word-bounded alternation. -/
def explicitTimeAsk (msg : String) : Bool :=
  scanBoundary (fun l =>
    explicitTimeAskToks.any (fun k => wordHit k.data l) || addDropAskHit l)
    none (pyLower msg).data

/-- `helpers._FIELD_QUESTION`: `\b(midterms?|finals?|exam(?:s)?)\s*\?`
(re.I) — a field word followed (after optional whitespace) by a question
mark. -/
def fieldQuestion (msg : String) : Bool :=
  scanBoundary (fun l =>
    ["midterm", "midterms", "final", "finals", "exam", "exams"].any (fun k =>
      k.data.isPrefixOf l &&
        (match (l.drop k.data.length).dropWhile pySpace with
         | '?' :: _ => true
         | _ => false)))
    none (pyLower msg).data

/-- `helpers._ADVISE_PHRASES`. -/
def _ADVISE_PHRASES : List String :=
  ["which course", "what courses", "degree plan", "course plan",
   "plan my courses", "track"]

/-- Word alternatives of `helpers._ADVISE_WORDS_REGEX`. -/
def adviseWordsToks : List String :=
  ["elective", "electives", "prereq", "prereqs", "prerequisite",
   "prerequisites", "credit", "credits", "unit", "units", "requirement",
   "requirements", "eligibility", "recommend", "recommendation",
   "advisor", "advise", "suggest"]

/-- `_Orchestrator._has_advising_action`: lowercase the text, test the
advising phrases by substring, else search `_ADVISE_WORDS_REGEX`. -/
def has_advising_action (text : String) : Bool :=
  let t := pyLower text
  _ADVISE_PHRASES.any (fun p => strContains t p) ||
    wordTokenSearch adviseWordsToks t.data

/-!
### Routing constants and the plan builder (`helpers.py`)
-/

/-- `helpers.AGENT_KEYS` as a list. -/
def AGENT_KEYS : List String :=
  ["poet", "scheduler", "advisor"]

/-- `helpers.AGENT_ORDER` with the `.get(k, 99)` default. -/
def agentOrder (k : String) : Nat :=
  if k = "poet" then 0
  else if k = "scheduler" then 1
  else if k = "advisor" then 2
  else 99

/-- `helpers.HANDOFF_START`. -/
def HANDOFF_START : String := "Triage"

/-- `helpers.DISPLAY_TO_KEY` with the `.get(name, "advisor")` default used
in `dispatch`. -/
def displayToKey (name : String) : String :=
  if name = "UniversityPoet" then "poet"
  else if name = "SchedulingAssistant" then "scheduler"
  else if name = "CourseAdvisor" then "advisor"
  else "advisor"

/-- Display names from the agent registry built in `agents.build_agents`
(the only field of the registry the orchestration layer reads). -/
def agentName (key : String) : String :=
  if key = "triage" then "Triage"
  else if key = "advisor" then "CourseAdvisor"
  else if key = "scheduler" then "SchedulingAssistant"
  else if key = "poet" then "UniversityPoet"
  else ""

/-- Python `list(dict.fromkeys(plan))` with the set of already-seen keys
made explicit: keep the first occurrence of each element. -/
def pydedupAux : List String → List String → List String
  | _, [] => []
  | seen, x :: xs =>
    if seen.contains x then pydedupAux seen xs
    else x :: pydedupAux (x :: seen) xs

/-- Python `list(dict.fromkeys(plan))`: deduplicate keeping the first
occurrence of each element. -/
def pydedup (l : List String) : List String :=
  pydedupAux [] l

/-- The sort key relation of `sorted(..., key=lambda k: AGENT_ORDER.get(k, 99))`. -/
def planLe (a b : String) : Prop :=
  agentOrder a ≤ agentOrder b

instance : DecidableRel planLe := fun _ _ => Nat.decLe _ _

instance : IsTotal String planLe := ⟨fun _ _ => Nat.le_total _ _⟩

instance : IsTrans String planLe := ⟨fun _ _ _ => Nat.le_trans⟩

/-- Python `sorted` (a stable sort) by the fixed priority key. -/
def sortPlan (l : List String) : List String :=
  List.insertionSort planLe l

/-- `explicit_schedule` of `_build_plan` (lines 150–152): the broad
time-ask pattern or the field-question pattern fires. -/
def explicitScheduleAsk (message : String) : Bool :=
  explicitTimeAsk message || fieldQuestion message

/-- The condition under which the schedule step of `_build_plan` appends
the scheduler (lines 149–155), including the `poem_only` suppression
guard. -/
def schedStepAppends (message : String) : Bool :=
  has_schedule_intent message &&
    (let explicitSchedule := explicitScheduleAsk message
     let poemOnly := has_poem_intent message && poem_is_campus message && !explicitSchedule
     !poemOnly && explicitSchedule)

/-- The list built by the append steps of `_Orchestrator._build_plan`
(lines 142–158), before deduplication and sorting.  `triageOutput` is the
raw router reply; the code lowers and strips it first. -/
def rawPlan (triageOutput message : String) : List String :=
  let triageLabel := pyLower (pyStrip triageOutput)
  let plan0 := if AGENT_KEYS.contains triageLabel then [triageLabel] else []
  let plan1 := plan0 ++ (if has_poem_intent message && poem_is_campus message then ["poet"] else [])
  let plan2 := plan1 ++ (if schedStepAppends message then ["scheduler"] else [])
  plan2 ++
    (if (has_course_intent message &&
          (!has_schedule_intent message || has_advising_action message)) || plan2.isEmpty
     then ["advisor"] else [])

/-- `_Orchestrator._build_plan` (line 161): deterministic order, dedupe
while preserving first occurrences. -/
def build_plan (triageOutput message : String) : List String :=
  sortPlan (pydedup (rawPlan triageOutput message))

/-- `_build_plan` as §4.2 of the spec words the schedule step: append the
scheduler iff schedule intent holds and there is an explicit schedule ask
(no `poem_only` guard).  Used to compare against the source's
`build_plan`. -/
def build_plan_specStep3 (triageOutput message : String) : List String :=
  let triageLabel := pyLower (pyStrip triageOutput)
  let plan0 := if AGENT_KEYS.contains triageLabel then [triageLabel] else []
  let plan1 := plan0 ++ (if has_poem_intent message && poem_is_campus message then ["poet"] else [])
  let plan2 := plan1 ++
    (if has_schedule_intent message && explicitScheduleAsk message then ["scheduler"] else [])
  let plan3 := plan2 ++
    (if (has_course_intent message &&
          (!has_schedule_intent message || has_advising_action message)) || plan2.isEmpty
     then ["advisor"] else [])
  sortPlan (pydedup plan3)

/-!
### Prompt builders, orchestrator and dispatch (`helpers.py`)

The opaque LLM invocation (`agents.Runner.run_sync`) is a parameter: a
state-passing capability from agent key and input text to the reply text,
where the state models the session the call reads and appends to.
-/

/-- Model of the opaque run capability: agent key → input → session state
→ (reply text, updated session state). -/
abbrev RunCap (σ : Type) : Type :=
  String → String → σ → String × σ

/-- Blank-guard of `_Orchestrator._run` (also used verbatim by the forced
branch of `dispatch_message`): strip the reply; an empty result becomes the
fixed placeholder. -/
def runGuard (raw : String) : String :=
  let txt := pyStrip raw
  if txt = "" then "No reply produced." else txt

/-- Prompt built by `_Orchestrator._poet_prompt`. -/
def poet_prompt (message : String) : String :=
  "Write a haiku about campus or student social life based on the user's message.\n" ++
  "FORMAT: exactly three lines (5-7-5). No title, no extra text.\n" ++
  "Do not include any dates or scheduling details (like exact days or ranges).\n" ++
  "User message: " ++ message

/-- Fixed-refusal scheduler prompt (the `wants_specific` branch of
`_Orchestrator._scheduler_prompt`). -/
def schedRefusalPrompt : String :=
  "If the user asks for a per-day or per-course class schedule (e.g., \"today\", \"tomorrow\", a specific date, " ++
  "or a course code like DS201), reply exactly with one line:\n" ++
  "\"Details for that specific schedule are not available in the current data.\""

/-- Field-targeted scheduler prompt of `_Orchestrator._scheduler_prompt`,
parameterized by the joined field list. -/
def schedFieldsPrompt (fieldList : String) : String :=
  "Use ONLY the schedule tool and answer strictly from its result. " ++
  "Write concise, factual SENTENCES for exactly these fields: " ++
  fieldList ++ ". Use 'YYYY-MM-DD' for dates and 'to' for ranges. " ++
  "One sentence per field. Do NOT include any other fields."

/-- Default scheduler prompt of `_Orchestrator._scheduler_prompt`. -/
def schedDefaultPrompt : String :=
  "Use ONLY the schedule tool and answer strictly from its result. " ++
  "Write concise, factual SENTENCES for: " ++
  "term_start, add_drop_deadline, midterms_window, finals_window, graduation_ceremony. " ++
  "Use 'YYYY-MM-DD' for dates and 'to' for ranges. One sentence per field."

/-- The `wants_specific` test of `_Orchestrator._scheduler_prompt`:
`_SPECIFIC_DAY` on the lowercased message, or `_COURSE_CODE` on the raw
message (case-sensitive), or `_CLASS_SCHEDULE_PHRASE` on the lowercased
message. -/
def wantsSpecificScheduleItem (message : String) : Bool :=
  specificDaySearch (pyLower message).data ||
  courseCodeSearch message.data ||
  classSchedulePhraseSearch (pyLower message).data

/-- `_Orchestrator._scheduler_prompt`. -/
def scheduler_prompt (message : String) : String :=
  if wantsSpecificScheduleItem message then schedRefusalPrompt
  else
    let fields := requested_schedule_fields message
    if !fields.isEmpty then schedFieldsPrompt (String.intercalate ", " fields)
    else schedDefaultPrompt

/-- Summary variant of `_Orchestrator._advisor_prompt`. -/
def advisorSummaryPrompt (message : String) : String :=
  "You are the CourseAdvisor. The user asked for a ONE-SENTENCE SUMMARY.\n" ++
  "Rules:\n" ++
  "1) Identify the user's interest area from this turn or prior session context.\n" ++
  "2) If recommendations for that interest are not already explicit in this turn, " ++
  "   you MUST call `recommend_courses` to obtain ~3–4 items.\n" ++
  "3) Then you MUST call `summarize_text` on the recommendations to produce " ++
  "   exactly one concise sentence. Do not include dates or poetry.\n" ++
  "If the user asks what they asked previously or to recap the last recommendations, " ++
  "respond with one concise sentence summarizing that prior request/recommendations using session context.\n" ++
  "User message: " ++ message

/-- Standard variant of `_Orchestrator._advisor_prompt`. -/
def advisorStandardPrompt (message : String) : String :=
  "You are the CourseAdvisor. Focus ONLY on course advising (credits, requirements, prerequisites, eligibility, recommendations). " ++
  "Do NOT include any dates or schedule info.\n" ++
  "Conversation meta (allowed): If the user asks what they asked previously, or to recap/clarify earlier recommendations, " ++
  "briefly paraphrase the relevant prior request or your last recommendations. This is in scope and must NOT trigger the out-of-scope guard.\n" ++
  "Out-of-scope guard: If the message is unrelated to academics (e.g., weather, politics, sports, stock prices, exchange rates, news, " ++
  "general facts), reply exactly with: " ++
  "\"I can only assist with course advising. Please ask about courses, electives, prerequisites, credits, requirements, or eligibility.\" " ++
  "Do NOT call any tools in that case.\n" ++
  "Instructions:\n" ++
  "1) Extract any interest area mentioned by the user (e.g., 'data science', 'AI', 'web', 'cloud'; include aliases like 'ML').\n" ++
  "2) If an interest area is present OR was previously discussed in session, you MUST call the `recommend_courses` tool with that interest " ++
  "and suggest ~3–4 options.\n" ++
  "3) If no clear interest area is present, ask ONE focused clarifying question and still call `recommend_courses` with the best guess.\n" ++
  "Keep to 2–4 concise sentences.\n" ++
  "User message: " ++ message

/-- `_Orchestrator._advisor_prompt`, selected by the summary flag. -/
def advisor_prompt (message : String) (summary : Bool) : String :=
  if summary then advisorSummaryPrompt message else advisorStandardPrompt message

/-- One specialist's response chunk (`helpers.Segment`). -/
structure Segment where
  agent : String
  text : String
deriving Repr, DecidableEq

/-- Structured result returned to the caller (`helpers.DispatchResult`). -/
structure DispatchResult where
  segments : List Segment
  handoff_chain : List String
  agent_key : String
  agent_name : String
  text : String
deriving Repr, DecidableEq

/-- The plan-execution loop of `_Orchestrator.dispatch`: run each planned
specialist in order against the threaded session, collecting segments and
the invoked display names.  Steps outside the three known keys match no
branch of the loop and contribute nothing. -/
def execPlan {σ : Type} (run : RunCap σ) (message : String) :
    List String → σ → List Segment × List String × σ
  | [], st => ([], [], st)
  | step :: rest, st =>
    if step = "poet" then
      let r := run "poet" (poet_prompt message) st
      let tail := execPlan run message rest r.2
      (⟨agentName "poet", runGuard r.1⟩ :: tail.1, agentName "poet" :: tail.2.1, tail.2.2)
    else if step = "scheduler" then
      let r := run "scheduler" (scheduler_prompt message) st
      let tail := execPlan run message rest r.2
      (⟨agentName "scheduler", runGuard r.1⟩ :: tail.1, agentName "scheduler" :: tail.2.1, tail.2.2)
    else if step = "advisor" then
      let r := run "advisor" (advisor_prompt message (has_summary_intent message)) st
      let tail := execPlan run message rest r.2
      (⟨agentName "advisor", runGuard r.1⟩ :: tail.1, agentName "advisor" :: tail.2.1, tail.2.2)
    else execPlan run message rest st

/-- `_Orchestrator.dispatch`: consult the router, build the plan, execute
it, and assemble the result with the handoff chain pre-seeded with the
router's display name. -/
def dispatch {σ : Type} (run : RunCap σ) (message : String) (st : σ) :
    DispatchResult × σ :=
  let tr := run "triage" message st
  let plan := build_plan tr.1 message
  let ex := execPlan run message plan tr.2
  let segments := ex.1
  let lastAgent := ((segments.getLast?).map Segment.agent).getD "CourseAdvisor"
  let combined := String.intercalate "\n\n" (segments.map (fun s => s.agent ++ ": " ++ s.text))
  ({segments := segments,
    handoff_chain := HANDOFF_START :: ex.2.1,
    agent_key := displayToKey lastAgent,
    agent_name := lastAgent,
    text := combined}, ex.2.2)

/-- `helpers.dispatch_message`: bypass to a forced specialist when the
forced key is one of `AGENT_KEYS`, otherwise default routing. -/
def dispatch_message {σ : Type} (run : RunCap σ) (message : String) (st : σ)
    (forceAgent : Option String) : DispatchResult × σ :=
  match forceAgent with
  | some k =>
    if AGENT_KEYS.contains k then
      let r := run k message st
      let reply := runGuard r.1
      ({segments := [⟨agentName k, reply⟩],
        handoff_chain := ["Forced", agentName k],
        agent_key := k,
        agent_name := agentName k,
        text := reply}, r.2)
    else dispatch run message st
  | none => dispatch run message st

/-!
### Text normalizers (`runner.py`, `_TextNormalizer`)

The two class methods apply `re.sub` with multiline patterns.  Each
substitution is embedded as a left-to-right scanner that carries a
beginning-of-line flag (Python `^` under `re.M` matches at the string
start and right after every newline of the *original* string; scanning
resumes at each match end).  Greedy `\s*` runs followed by a mandatory
non-whitespace literal admit no backtracking, so each match attempt is a
deterministic chain of `dropWhile`/`takeWhile` steps.
-/

/-- Non-greedy group of `SCHED_MD_LABEL`: `(.+?)` followed by `**:` —
consume at least one non-newline character, stopping at the first position
where `**:` follows; returns the group and the remainder after `**:`. -/
def mdGroup : List Char → List Char → Option (List Char × List Char)
  | _, [] => none
  | acc, c :: cs =>
    if "**:".data.isPrefixOf (c :: cs) && !acc.isEmpty then
      some (acc.reverse, (c :: cs).drop 3)
    else if c == '\n' then none
    else mdGroup (c :: acc) cs

/-- Consuming a successful `mdGroup` shortens the text. -/
theorem mdGroup_length : ∀ (l acc : List Char) {g r : List Char},
    mdGroup acc l = some (g, r) → r.length < l.length := by
  intro l
  induction l with
  | nil => intro acc g r h; simp [mdGroup] at h
  | cons c cs ih =>
    intro acc g r h
    rw [mdGroup] at h
    split at h
    · simp only [Option.some.injEq, Prod.mk.injEq] at h
      rcases h with ⟨-, h2⟩
      subst h2
      simp only [List.drop_succ_cons, List.length_cons, List.length_drop]
      omega
    · split at h
      · exact absurd h (by simp)
      · have := ih (c :: acc) h
        simp only [List.length_cons]
        omega

/-- One attempt of `SCHED_MD_LABEL` = `^\s*-\s*\*\*(.+?)\*\*:\s*` at a
line-start position: on success returns the replacement `\1: `, whether
the last matched character was a newline (so that the next position is
again a line start), and the remainder. -/
def tryMdLabel (l : List Char) : Option (List Char × Bool × List Char) :=
  let r1 := l.dropWhile pySpace
  if r1.head? = some '-' then
    let r3 := r1.tail.dropWhile pySpace
    if "**".data.isPrefixOf r3 then
      match mdGroup [] (r3.drop 2) with
      | some (g, r5) =>
        some (g ++ [':', ' '], (r5.takeWhile pySpace).getLast? == some '\n',
              r5.dropWhile pySpace)
      | none => none
    else none
  else none

/-- A successful `tryMdLabel` shortens the text. -/
theorem tryMdLabel_length {l : List Char} {rep : List Char} {ba : Bool}
    {rest : List Char} (h : tryMdLabel l = some (rep, ba, rest)) :
    rest.length < l.length := by
  simp only [tryMdLabel] at h
  have h1 : (l.dropWhile pySpace).length ≤ l.length :=
    (List.dropWhile_sublist pySpace).length_le
  split at h
  · rename_i hhead
    have hne : l.dropWhile pySpace ≠ [] := by
      intro hnil; rw [hnil] at hhead; simp at hhead
    have h2 : ((l.dropWhile pySpace).tail).length + 1 = (l.dropWhile pySpace).length :=
      by cases hd : l.dropWhile pySpace with
         | nil => exact absurd hd hne
         | cons a as => simp [hd]
    have h3 : (((l.dropWhile pySpace).tail.dropWhile pySpace)).length ≤
        ((l.dropWhile pySpace).tail).length :=
      (List.dropWhile_sublist pySpace).length_le
    split at h
    · rename_i hpre
      cases hm : mdGroup [] (((l.dropWhile pySpace).tail.dropWhile pySpace).drop 2) with
      | none => rw [hm] at h; exact absurd h (by simp)
      | some p =>
        rcases p with ⟨g, r5⟩
        rw [hm] at h
        simp only [Option.some.injEq, Prod.mk.injEq] at h
        rcases h with ⟨-, -, hrest⟩
        subst hrest
        have h4 := mdGroup_length _ _ hm
        have h5 : (((l.dropWhile pySpace).tail.dropWhile pySpace).drop 2).length ≤
            ((l.dropWhile pySpace).tail.dropWhile pySpace).length := by
          simp [List.length_drop]
        have h6 : (r5.dropWhile pySpace).length ≤ r5.length :=
          (List.dropWhile_sublist pySpace).length_le
        omega
    · exact absurd h (by simp)
  · exact absurd h (by simp)

/-- The `SCHED_MD_LABEL` substitution `→ '\1: '`, scanning with a
beginning-of-line flag. -/
def subMdLabelAux : Bool → List Char → List Char
  | _, [] => []
  | bol, c :: cs =>
    if bol then
      match h : tryMdLabel (c :: cs) with
      | some (rep, ba, rest) => rep ++ subMdLabelAux ba rest
      | none => c :: subMdLabelAux (c == '\n') cs
    else c :: subMdLabelAux (c == '\n') cs
termination_by _ l => l.length
decreasing_by
  · exact tryMdLabel_length h
  · simp only [List.length_cons]; omega
  · simp only [List.length_cons]; omega

/-- One attempt of `SCHED_BULLETS` = `^\s*-\s*` at a line-start position:
on success returns whether the final matched character was a newline and
the remainder. -/
def tryBullet (l : List Char) : Option (Bool × List Char) :=
  let r1 := l.dropWhile pySpace
  if r1.head? = some '-' then
    some ((r1.tail.takeWhile pySpace).getLast? == some '\n',
          r1.tail.dropWhile pySpace)
  else none

/-- A successful `tryBullet` shortens the text. -/
theorem tryBullet_length {l : List Char} {ba : Bool} {rest : List Char}
    (h : tryBullet l = some (ba, rest)) : rest.length < l.length := by
  simp only [tryBullet] at h
  have h1 : (l.dropWhile pySpace).length ≤ l.length :=
    (List.dropWhile_sublist pySpace).length_le
  split at h
  · rename_i hhead
    have hne : l.dropWhile pySpace ≠ [] := by
      intro hnil; rw [hnil] at hhead; simp at hhead
    have h2 : ((l.dropWhile pySpace).tail).length + 1 = (l.dropWhile pySpace).length :=
      by cases hd : l.dropWhile pySpace with
         | nil => exact absurd hd hne
         | cons a as => simp [hd]
    have h3 : ((l.dropWhile pySpace).tail.dropWhile pySpace).length ≤
        ((l.dropWhile pySpace).tail).length :=
      (List.dropWhile_sublist pySpace).length_le
    simp only [Option.some.injEq, Prod.mk.injEq] at h
    rcases h with ⟨-, hrest⟩
    subst hrest
    omega
  · exact absurd h (by simp)

/-- The `SCHED_BULLETS` substitution `→ ''`, scanning with a
beginning-of-line flag. -/
def subBulletsAux : Bool → List Char → List Char
  | _, [] => []
  | bol, c :: cs =>
    if bol then
      match h : tryBullet (c :: cs) with
      | some (ba, rest) => subBulletsAux ba rest
      | none => c :: subBulletsAux (c == '\n') cs
    else c :: subBulletsAux (c == '\n') cs
termination_by _ l => l.length
decreasing_by
  · exact tryBullet_length h
  · simp only [List.length_cons]; omega
  · simp only [List.length_cons]; omega

/-- `DASHES_MAP`: translate en and em dashes to plain hyphens. -/
def dashMap (c : Char) : Char :=
  if c = '–' then '-' else if c = '—' then '-' else c

/-- `_TextNormalizer.scheduler`: markdown bold labels to `key: value`
lines, bullet markers removed, dashes normalized, then stripped; the empty
string is returned unchanged. -/
def textNormalizer_scheduler (text : String) : String :=
  if text = "" then text
  else
    let s1 := subMdLabelAux true text.data
    let s2 := subBulletsAux true s1
    ⟨pyStripL (s2.map dashMap)⟩

/-- Split a character list at its last newline: `w = fst ++ '\n' :: snd`
with `snd` newline-free; `none` when no newline occurs. -/
def splitAtLastNl : List Char → Option (List Char × List Char)
  | [] => none
  | c :: cs =>
    match splitAtLastNl cs with
    | some (a, b) => some (c :: a, b)
    | none => if c == '\n' then some ([], cs) else none

/-- The parts of a successful `splitAtLastNl` recompose the input's
length. -/
theorem splitAtLastNl_length : ∀ (w : List Char) {a b : List Char},
    splitAtLastNl w = some (a, b) → a.length + b.length + 1 = w.length := by
  intro w
  induction w with
  | nil => intro a b h; simp [splitAtLastNl] at h
  | cons c cs ih =>
    intro a b h
    rw [splitAtLastNl] at h
    cases hs : splitAtLastNl cs with
    | some p =>
      rcases p with ⟨a', b'⟩
      rw [hs] at h
      simp only [Option.some.injEq, Prod.mk.injEq] at h
      rcases h with ⟨ha, hb⟩
      subst ha; subst hb
      have := ih hs
      simp only [List.length_cons]
      omega
    | none =>
      rw [hs] at h
      have h' : (if c == '\n' then some (([] : List Char), cs) else none) = some (a, b) := h
      split at h'
      · simp only [Option.some.injEq, Prod.mk.injEq] at h'
        rcases h' with ⟨ha, hb⟩
        subst ha; subst hb
        simp
      · exact absurd h' (by simp)

/-- First alternative of `ADVISOR_CODEFENCE` = `^\s*`#`{3,}.*?$` (the hash
stands for nothing: the pattern is three-or-more backticks) at a
line-start position: leading whitespace, at least three backticks, then
the rest of the line; the match stops in front of the line's newline, so
the position after a match is never a line start. -/
def tryFence1 (l : List Char) : Option (List Char) :=
  let r1 := l.dropWhile pySpace
  if 3 ≤ (r1.takeWhile (fun c => c == '`')).length then
    some ((r1.dropWhile (fun c => c == '`')).dropWhile (fun c => c != '\n'))
  else none

/-- A successful `tryFence1` shortens the text. -/
theorem tryFence1_length {l rest : List Char} (h : tryFence1 l = some rest) :
    rest.length < l.length := by
  simp only [tryFence1] at h
  have h1 : (l.dropWhile pySpace).length ≤ l.length :=
    (List.dropWhile_sublist pySpace).length_le
  split at h
  · rename_i hticks
    have hsplit := List.takeWhile_append_dropWhile (p := fun c => c == '`')
      (l := l.dropWhile pySpace)
    have hlen : ((l.dropWhile pySpace).takeWhile (fun c => c == '`')).length +
        ((l.dropWhile pySpace).dropWhile (fun c => c == '`')).length =
        (l.dropWhile pySpace).length := by
      rw [← List.length_append, hsplit]
    have h2 : rest.length ≤
        ((l.dropWhile pySpace).dropWhile (fun c => c == '`')).length := by
      simp only [Option.some.injEq] at h
      subst h
      exact (List.dropWhile_sublist _).length_le
    omega
  · exact absurd h (by simp)

/-- Second alternative of `ADVISOR_CODEFENCE` = three-or-more backticks
followed by `\s*$`, attempted at any position: the greedy whitespace run
either reaches the end of the string (everything is consumed) or
backtracks to stop in front of the last newline of the run. -/
def tryFence2 (l : List Char) : Option (Bool × List Char) :=
  if 3 ≤ (l.takeWhile (fun c => c == '`')).length then
    let r := l.dropWhile (fun c => c == '`')
    let w := r.takeWhile pySpace
    if (r.dropWhile pySpace).isEmpty then some (false, [])
    else
      match splitAtLastNl w with
      | some (w1, w2) =>
        some (w1.getLast? == some '\n', '\n' :: (w2 ++ r.dropWhile pySpace))
      | none => none
  else none

/-- A successful `tryFence2` shortens the text. -/
theorem tryFence2_length {l rest : List Char} {ba : Bool}
    (h : tryFence2 l = some (ba, rest)) : rest.length < l.length := by
  simp only [tryFence2] at h
  split at h
  · rename_i hticks
    have hsplit : (l.takeWhile (fun c => c == '`')).length +
        (l.dropWhile (fun c => c == '`')).length = l.length := by
      rw [← List.length_append, List.takeWhile_append_dropWhile]
    split at h
    · simp only [Option.some.injEq, Prod.mk.injEq] at h
      rcases h with ⟨-, hrest⟩
      subst hrest
      simp only [List.length_nil]
      omega
    · cases hs : splitAtLastNl ((l.dropWhile (fun c => c == '`')).takeWhile pySpace) with
      | some p =>
        rcases p with ⟨w1, w2⟩
        rw [hs] at h
        simp only [Option.some.injEq, Prod.mk.injEq] at h
        rcases h with ⟨-, hrest⟩
        subst hrest
        have hw := splitAtLastNl_length _ hs
        have hw2 : ((l.dropWhile (fun c => c == '`')).takeWhile pySpace).length +
            ((l.dropWhile (fun c => c == '`')).dropWhile pySpace).length =
            (l.dropWhile (fun c => c == '`')).length := by
          rw [← List.length_append, List.takeWhile_append_dropWhile]
        simp only [List.length_cons, List.length_append]
        omega
      | none => rw [hs] at h; exact absurd h (by simp)
  · exact absurd h (by simp)

/-- The `ADVISOR_CODEFENCE` substitution `→ ''`: at a line start try the
whole-line alternative first, then the anywhere alternative, advancing one
character when neither matches. -/
def subCodeFenceAux : Bool → List Char → List Char
  | _, [] => []
  | bol, c :: cs =>
    if bol then
      match h1 : tryFence1 (c :: cs) with
      | some rest => subCodeFenceAux false rest
      | none =>
        match h2 : tryFence2 (c :: cs) with
        | some (ba, rest) => subCodeFenceAux ba rest
        | none => c :: subCodeFenceAux (c == '\n') cs
    else
      match h2 : tryFence2 (c :: cs) with
      | some (ba, rest) => subCodeFenceAux ba rest
      | none => c :: subCodeFenceAux (c == '\n') cs
termination_by _ l => l.length
decreasing_by
  · exact tryFence1_length h1
  · exact tryFence2_length h2
  · simp only [List.length_cons]; omega
  · exact tryFence2_length h2
  · simp only [List.length_cons]; omega

/-- Non-greedy group of `ADVISOR_BOLD` = `\*\*(.+?)\*\*`: at least one
non-newline character, stopping at the first position where `**`
follows. -/
def boldGroup : List Char → List Char → Option (List Char × List Char)
  | _, [] => none
  | acc, c :: cs =>
    if "**".data.isPrefixOf (c :: cs) && !acc.isEmpty then
      some (acc.reverse, (c :: cs).drop 2)
    else if c == '\n' then none
    else boldGroup (c :: acc) cs

/-- Consuming a successful `boldGroup` shortens the text. -/
theorem boldGroup_length : ∀ (l acc : List Char) {g r : List Char},
    boldGroup acc l = some (g, r) → r.length < l.length := by
  intro l
  induction l with
  | nil => intro acc g r h; simp [boldGroup] at h
  | cons c cs ih =>
    intro acc g r h
    rw [boldGroup] at h
    split at h
    · simp only [Option.some.injEq, Prod.mk.injEq] at h
      rcases h with ⟨-, h2⟩
      subst h2
      simp only [List.drop_succ_cons, List.length_cons, List.length_drop]
      omega
    · split at h
      · exact absurd h (by simp)
      · have := ih (c :: acc) h
        simp only [List.length_cons]
        omega

/-- The `ADVISOR_BOLD` substitution `→ '\1'`: unwrap `**…**`, advancing
one character when no match starts at the current position. -/
def subBoldAux : List Char → List Char
  | [] => []
  | '*' :: '*' :: r4 =>
    match h : boldGroup [] r4 with
    | some (g, rest) => g ++ subBoldAux rest
    | none => '*' :: subBoldAux ('*' :: r4)
  | c :: cs => c :: subBoldAux cs
termination_by l => l.length
decreasing_by
  · have := boldGroup_length r4 [] h
    simp only [List.length_cons]; omega
  · simp only [List.length_cons]; omega
  · simp only [List.length_cons]; omega

/-- `_TextNormalizer.advisor`: strip code-fence lines, unwrap bold
markers, then strip; the empty string is returned unchanged. -/
def textNormalizer_advisor (text : String) : String :=
  if text = "" then text
  else ⟨pyStripL (subBoldAux (subCodeFenceAux true text.data))⟩

/-!
### Routing entrypoint (`runner.py`, `run_with_agents_sdk`)

`os.getenv("OPENAI_API_KEY", "")` is a parameter `apiKey` (the empty
string models an unset variable); `SQLiteSession(session_id, …)` is a
parameter `mkSession` producing the opaque session state for a session
identifier.
-/

/-- The JSON-like payload returned by `run_with_agents_sdk`. -/
structure ApiPayload where
  session_id : String
  agent : String
  segments : List Segment
  response : String
  handoff : Option String
deriving Repr, DecidableEq

/-- Per-segment normalization loop of `run_with_agents_sdk`: scheduler and
advisor segments are normalized, every other segment (the Poet) is
untouched. -/
def normalizeSegment (s : Segment) : Segment :=
  if s.agent = "SchedulingAssistant" then ⟨s.agent, textNormalizer_scheduler s.text⟩
  else if s.agent = "CourseAdvisor" then ⟨s.agent, textNormalizer_advisor s.text⟩
  else s

/-- `runner.run_with_agents_sdk`.  In the source the no-segments fallback
reads `segments[-1]` only in the non-empty branch, so the `"system"`
default of the model's `getLast?` is unreachable there. -/
def run_with_agents_sdk {σ : Type} (apiKey : String) (run : RunCap σ)
    (mkSession : String → σ) (message sessionId : String) : ApiPayload :=
  if pyStrip apiKey = "" then
    { session_id := sessionId, agent := "system", segments := [],
      response := "Configuration issue: set OPENAI_API_KEY in your environment and restart the server.",
      handoff := none }
  else
    let routed := (dispatch_message run message (mkSession sessionId) none).1
    let chain := routed.handoff_chain
    let handoff := if chain.isEmpty then none else some (String.intercalate " -> " chain)
    let segments := routed.segments.map normalizeSegment
    if segments.isEmpty then
      let lastAgent := routed.agent_name
      let responseText :=
        if lastAgent = "SchedulingAssistant" then textNormalizer_scheduler routed.text
        else if lastAgent = "CourseAdvisor" then textNormalizer_advisor routed.text
        else routed.text
      { session_id := sessionId, agent := lastAgent, segments := segments,
        response := responseText, handoff := handoff }
    else
      { session_id := sessionId,
        agent := ((segments.getLast?).map Segment.agent).getD "system",
        segments := segments,
        response := String.intercalate "\n\n" (segments.map (fun s => s.agent ++ ": " ++ s.text)),
        handoff := handoff }

/-!
### Structural lemmas about deduplication and the priority sort
-/

/-- Boolean `List.contains` agrees with membership on strings. -/
theorem contains_iff_mem {l : List String} {a : String} :
    l.contains a = true ↔ a ∈ l := by
  simp [List.contains, List.elem_iff]

/-- Membership in `pydedupAux`: an element occurs iff it occurs in the
remaining input and was not already seen. -/
theorem pydedupAux_mem : ∀ (l seen : List String) (x : String),
    x ∈ pydedupAux seen l ↔ x ∈ l ∧ x ∉ seen := by
  intro l
  induction l with
  | nil => intro seen x; simp [pydedupAux]
  | cons y ys ih =>
    intro seen x
    rw [pydedupAux]
    split
    · rename_i hy
      rw [ih]
      rw [contains_iff_mem] at hy
      constructor
      · intro hx
        exact ⟨List.mem_cons_of_mem y hx.1, hx.2⟩
      · intro hx
        rcases List.mem_cons.mp hx.1 with he | hm
        · subst he; exact absurd hy hx.2
        · exact ⟨hm, hx.2⟩
    · rename_i hy
      have hy' : y ∉ seen := fun hmem => hy (contains_iff_mem.mpr hmem)
      simp only [List.mem_cons, ih]
      by_cases hxy : x = y
      · subst hxy; simp [hy']
      · simp [hxy]

/-- `pydedupAux` produces a duplicate-free list. -/
theorem pydedupAux_nodup : ∀ (l seen : List String), (pydedupAux seen l).Nodup := by
  intro l
  induction l with
  | nil => intro seen; simp [pydedupAux]
  | cons y ys ih =>
    intro seen
    rw [pydedupAux]
    split
    · exact ih seen
    · refine List.nodup_cons.mpr ⟨?_, ih (y :: seen)⟩
      intro hy
      rw [pydedupAux_mem] at hy
      exact hy.2 (List.mem_cons_self y seen)

/-- Membership is preserved by `pydedup`. -/
theorem pydedup_mem (l : List String) (x : String) : x ∈ pydedup l ↔ x ∈ l := by
  rw [pydedup, pydedupAux_mem]
  simp

/-- `pydedup` produces a duplicate-free list. -/
theorem pydedup_nodup (l : List String) : (pydedup l).Nodup :=
  pydedupAux_nodup l []

/-- The strict version of the priority-key relation. -/
def planLt (a b : String) : Prop :=
  agentOrder a < agentOrder b

instance : DecidableRel planLt := fun _ _ => Nat.decLt _ _

instance : IsAntisymm String planLt :=
  ⟨fun _ _ h1 h2 => absurd h2 (Nat.lt_asymm h1)⟩

/-- On the known agent keys, equal priorities force equal keys. -/
theorem agentOrder_inj {a b : String} (ha : a ∈ AGENT_KEYS) (hb : b ∈ AGENT_KEYS)
    (h : agentOrder a = agentOrder b) : a = b := by
  fin_cases ha <;> fin_cases hb <;> simp_all [agentOrder]

/-- Characterization of `_build_plan`'s final sort-of-dedup step: when
every raw entry is a known agent key, it equals the fixed-priority key
list filtered to the raw entries. -/
theorem sortPlan_pydedup_eq_filter (raw : List String)
    (h : ∀ x ∈ raw, x ∈ AGENT_KEYS) :
    sortPlan (pydedup raw) = AGENT_KEYS.filter (fun k => raw.contains k) := by
  have hperm0 : List.Perm (sortPlan (pydedup raw)) (pydedup raw) :=
    List.perm_insertionSort planLe (pydedup raw)
  have hLnodup : (sortPlan (pydedup raw)).Nodup :=
    hperm0.symm.nodup (pydedup_nodup raw)
  have hKnodup : AGENT_KEYS.Nodup := by decide
  have hRnodup : (AGENT_KEYS.filter (fun k => raw.contains k)).Nodup :=
    hKnodup.filter _
  have hLmem : ∀ x, x ∈ sortPlan (pydedup raw) ↔ x ∈ raw := by
    intro x
    rw [hperm0.mem_iff, pydedup_mem]
  have hmem : ∀ x, x ∈ sortPlan (pydedup raw) ↔
      x ∈ AGENT_KEYS.filter (fun k => raw.contains k) := by
    intro x
    rw [hLmem, List.mem_filter]
    constructor
    · intro hx
      exact ⟨h x hx, by rwa [contains_iff_mem]⟩
    · intro hx
      rw [← contains_iff_mem]
      exact hx.2
  have hperm : List.Perm (sortPlan (pydedup raw)) (AGENT_KEYS.filter (fun k => raw.contains k)) :=
    (List.perm_ext_iff_of_nodup hLnodup hRnodup).mpr hmem
  have hLle : (sortPlan (pydedup raw)).Pairwise planLe :=
    List.sorted_insertionSort planLe (pydedup raw)
  have hLne : (sortPlan (pydedup raw)).Pairwise (fun a b => a ≠ b) := hLnodup
  have hLlt : (sortPlan (pydedup raw)).Pairwise planLt := by
    refine List.Pairwise.imp_of_mem ?_ (hLle.and hLne)
    intro a b ha hb hab
    rcases hab with ⟨hle, hne⟩
    have haK : a ∈ AGENT_KEYS := h a ((hLmem a).mp ha)
    have hbK : b ∈ AGENT_KEYS := h b ((hLmem b).mp hb)
    have : agentOrder a ≠ agentOrder b := fun he => hne (agentOrder_inj haK hbK he)
    exact lt_of_le_of_ne hle this
  have hRlt : (AGENT_KEYS.filter (fun k => raw.contains k)).Pairwise planLt := by
    have : AGENT_KEYS.Pairwise planLt := by decide
    exact this.filter _
  exact List.eq_of_perm_of_sorted hperm hLlt hRlt

/-- Every entry appended by the steps of `_build_plan` is a known key. -/
theorem rawPlan_subset (triageOutput message : String) :
    ∀ x ∈ rawPlan triageOutput message, x ∈ AGENT_KEYS := by
  intro x hx
  unfold rawPlan at hx
  simp only [List.mem_append] at hx
  rcases hx with ((h0 | h1) | h2) | h3
  · split at h0
    · rename_i hc
      simp only [List.mem_singleton] at h0
      subst h0
      rwa [← contains_iff_mem]
    · simp at h0
  · split at h1 <;> simp_all [AGENT_KEYS]
  · split at h2 <;> simp_all [AGENT_KEYS]
  · split at h3 <;> simp_all [AGENT_KEYS]

/-- The raw plan is never empty: the advisor fallback fires exactly on an
empty prefix. -/
theorem rawPlan_ne_nil (triageOutput message : String) :
    rawPlan triageOutput message ≠ [] := by
  unfold rawPlan
  intro hcon
  rcases List.append_eq_nil.mp hcon with ⟨h2, h3⟩
  rw [h2] at h3
  simp at h3

/-- `build_plan` as the key list filtered by raw-plan membership. -/
theorem build_plan_eq_filter (triageOutput message : String) :
    build_plan triageOutput message =
      AGENT_KEYS.filter (fun k => (rawPlan triageOutput message).contains k) :=
  sortPlan_pydedup_eq_filter _ (rawPlan_subset triageOutput message)

/-!
### Claim theorems
-/

/-- C1: for every message and every router label the triage capability may
return, the plan produced by `_build_plan` is non-empty, contains no
duplicate specialist keys, and its elements appear in the fixed priority
order poet < scheduler < advisor. -/
theorem C1_plan_invariants (triageOutput message : String) :
    build_plan triageOutput message ≠ [] ∧
    (build_plan triageOutput message).Nodup ∧
    (build_plan triageOutput message).Pairwise planLt := by
  rw [build_plan_eq_filter]
  refine ⟨?_, ?_, ?_⟩
  · rcases List.exists_mem_of_ne_nil _ (rawPlan_ne_nil triageOutput message) with ⟨x, hx⟩
    have hxK : x ∈ AGENT_KEYS := rawPlan_subset _ _ x hx
    have hxf : x ∈ AGENT_KEYS.filter (fun k => (rawPlan triageOutput message).contains k) :=
      List.mem_filter.mpr ⟨hxK, contains_iff_mem.mpr hx⟩
    exact List.ne_nil_of_mem hxf
  · exact (by decide : AGENT_KEYS.Nodup).filter _
  · exact List.Pairwise.filter _ (by decide : AGENT_KEYS.Pairwise planLt)

/-- C9: the schedule step of `_build_plan` appends the scheduler iff the
message has schedule intent and an explicit schedule ask; the `poem_only`
suppression guard never changes this outcome, so the source plan builder
coincides with the plan builder whose step 3 tests the explicit ask
alone. -/
theorem C9_poem_only_guard_redundant (triageOutput message : String) :
    schedStepAppends message =
      (has_schedule_intent message && explicitScheduleAsk message) ∧
    build_plan triageOutput message = build_plan_specStep3 triageOutput message := by
  have hstep : schedStepAppends message =
      (has_schedule_intent message && explicitScheduleAsk message) := by
    unfold schedStepAppends
    cases h1 : has_schedule_intent message <;>
      cases h2 : explicitScheduleAsk message <;>
      cases h3 : has_poem_intent message <;>
      cases h4 : poem_is_campus message <;>
      simp [h2]
  refine ⟨hstep, ?_⟩
  unfold build_plan build_plan_specStep3 rawPlan
  rw [hstep]

/-- C6: forced dispatch is a two-case function of the forced key: a
recognized key is routed directly to that specialist with the fixed
`["Forced", display name]` handoff chain and exactly one capability
invocation, an unrecognized key falls back to default routing. -/
theorem C6_forced_dispatch {σ : Type} (run : RunCap σ) (message : String)
    (st : σ) (k : String) :
    (k ∈ AGENT_KEYS →
      dispatch_message run message st (some k) =
        ({segments := [⟨agentName k, runGuard (run k message st).1⟩],
          handoff_chain := ["Forced", agentName k],
          agent_key := k,
          agent_name := agentName k,
          text := runGuard (run k message st).1}, (run k message st).2)) ∧
    (k ∉ AGENT_KEYS →
      dispatch_message run message st (some k) = dispatch run message st) := by
  constructor
  · intro hk
    have hc : AGENT_KEYS.contains k = true := contains_iff_mem.mpr hk
    unfold dispatch_message
    simp only [hc, if_true]
  · intro hk
    have hc : AGENT_KEYS.contains k = false := by
      cases hb : AGENT_KEYS.contains k
      · rfl
      · exact absurd (contains_iff_mem.mp hb) hk
    unfold dispatch_message
    simp [hc]
    intro hmem
    exact absurd hmem hk

/-- Witness for C6 at a concrete capability, session and keys. -/
theorem C6_witness :
    (dispatch_message (fun _ _ _ => ("ok", 0)) "hi" (0 : Nat) (some "poet")).1.handoff_chain =
      ["Forced", "UniversityPoet"] ∧
    dispatch_message (fun _ _ _ => ("ok", 0)) "hi" (0 : Nat) (some "mystery") =
      dispatch (fun _ _ _ => ("ok", 0)) "hi" 0 := by
  constructor
  · rw [(C6_forced_dispatch (fun _ _ _ => ("ok", 0)) "hi" (0 : Nat) "poet").1 (by decide)]
    rfl
  · exact (C6_forced_dispatch (fun _ _ _ => ("ok", 0)) "hi" (0 : Nat) "mystery").2 (by decide)

/-- C7: with a blank API key the entrypoint returns the fixed
configuration-failure payload — for every capability and session factory,
so no specialist is invoked — with empty segments and no handoff. -/
theorem C7_config_failure {σ : Type} (apiKey : String) (run : RunCap σ)
    (mkSession : String → σ) (message sessionId : String)
    (h : pyStrip apiKey = "") :
    run_with_agents_sdk apiKey run mkSession message sessionId =
      { session_id := sessionId, agent := "system", segments := [],
        response := "Configuration issue: set OPENAI_API_KEY in your environment and restart the server.",
        handoff := none } := by
  unfold run_with_agents_sdk
  rw [if_pos h]

/-- Witness for C7 at a concrete blank key, capability and session. -/
theorem C7_witness :
    run_with_agents_sdk "  " (fun _ _ _ => ("ok", 0)) (fun _ => (0 : Nat)) "hi" "s1" =
      { session_id := "s1", agent := "system", segments := [],
        response := "Configuration issue: set OPENAI_API_KEY in your environment and restart the server.",
        handoff := none } :=
  C7_config_failure "  " (fun _ _ _ => ("ok", 0)) (fun _ => (0 : Nat)) "hi" "s1" (by decide)

/-- The blank-guard never yields an empty reply. -/
theorem runGuard_ne_empty (raw : String) : runGuard raw ≠ "" := by
  simp only [runGuard]
  split
  · decide
  · assumption

/-- Every segment text produced by the plan-execution loop is a
blank-guarded capability reply. -/
theorem execPlan_text_guarded {σ : Type} (run : RunCap σ) (message : String) :
    ∀ (plan : List String) (st : σ) (s : Segment),
      s ∈ (execPlan run message plan st).1 → ∃ raw, s.text = runGuard raw := by
  intro plan
  induction plan with
  | nil => intro st s hs; simp [execPlan] at hs
  | cons step rest ih =>
    intro st s hs
    rw [execPlan] at hs
    split at hs
    · rcases List.mem_cons.mp hs with he | hm
      · exact ⟨_, by rw [he]⟩
      · exact ih _ s hm
    · split at hs
      · rcases List.mem_cons.mp hs with he | hm
        · exact ⟨_, by rw [he]⟩
        · exact ih _ s hm
      · split at hs
        · rcases List.mem_cons.mp hs with he | hm
          · exact ⟨_, by rw [he]⟩
          · exact ih _ s hm
        · exact ih _ s hs

/-- C8: a blank capability reply is recorded as the fixed placeholder,
a non-blank reply as its trimmed text, and no segment assembled by the
orchestrator ever carries empty text. -/
theorem C8_blank_output_placeholder :
    (∀ raw : String,
      (pyStrip raw = "" → runGuard raw = "No reply produced.") ∧
      (pyStrip raw ≠ "" → runGuard raw = pyStrip raw) ∧
      runGuard raw ≠ "") ∧
    (∀ (σ : Type) (run : RunCap σ) (message : String) (st : σ) (s : Segment),
      s ∈ (dispatch run message st).1.segments → s.text ≠ "") := by
  constructor
  · intro raw
    refine ⟨?_, ?_, runGuard_ne_empty raw⟩
    · intro h; simp only [runGuard]; rw [if_pos h]
    · intro h; simp only [runGuard]; rw [if_neg h]
  · intro σ run message st s hs
    have hs' : s ∈ (execPlan run message (build_plan (run "triage" message st).1 message)
        (run "triage" message st).2).1 := hs
    rcases execPlan_text_guarded run message _ _ s hs' with ⟨raw, hraw⟩
    rw [hraw]
    exact runGuard_ne_empty raw

/-- Witness for C8 at concrete replies and a concrete dispatch. -/
theorem C8_witness :
    runGuard "   " = "No reply produced." ∧ runGuard " a reply " = "a reply" := by
  constructor
  · exact (C8_blank_output_placeholder.1 "   ").1 (by decide)
  · have h := (C8_blank_output_placeholder.1 " a reply ").2.1 (by decide)
    rw [h]
    decide

/-- C3 counterexample: "final exam" fires both the `final|finals` pattern
and the `exam(s)?` pattern, which share the canonical field
`finals_window`, so that canonical name appears twice. -/
theorem C3_counterexample :
    requested_schedule_fields "final exam" = ["finals_window", "finals_window"] ∧
    (requested_schedule_fields "final exam").count "finals_window" = 2 := by
  constructor <;> decide

/-- Unfolding step for filter-map over the pattern table: the head entry
contributes its canonical name exactly when its pattern matches. -/
theorem fieldsTable_step (f : List Char → Bool) (n : String)
    (rest : List ((List Char → Bool) × String)) (t : List Char) :
    ((((f, n) :: rest).filter (fun pf => pf.1 t)).map (fun pf => pf.2)) =
      (if f t then [n] else []) ++
        ((rest.filter (fun pf => pf.1 t)).map (fun pf => pf.2)) := by
  by_cases h : f t
  · simp [List.filter_cons, h]
  · simp [List.filter_cons, h]

/-- C3 amended: on every message the extraction returns exactly the
canonical field names of *all* matching patterns, one per matching
pattern, concatenated in fixed pattern-list order; consequently the
result is an order-preserving selection from the table's field column,
and the canonical name of every matching pattern occurs in it.  Since two
patterns map to `finals_window`, that canonical name can occur twice. -/
theorem C3_fields_characterization (msg : String) :
    requested_schedule_fields msg =
      (if patMidterm (pyLower msg).data then ["midterms_window"] else []) ++
      (if patFinal (pyLower msg).data then ["finals_window"] else []) ++
      (if patExam (pyLower msg).data then ["finals_window"] else []) ++
      (if patAddDrop (pyLower msg).data then ["add_drop_deadline"] else []) ++
      (if patTermStart (pyLower msg).data then ["term_start"] else []) ++
      (if patGraduation (pyLower msg).data then ["graduation_ceremony"] else []) ++
      (if patClassTimes (pyLower msg).data then ["class_times"] else []) ∧
    List.Sublist (requested_schedule_fields msg)
      ["midterms_window", "finals_window", "finals_window", "add_drop_deadline",
       "term_start", "graduation_ceremony", "class_times"] ∧
    (∀ pf ∈ _PATTERNS_TO_FIELDS, pf.1 (pyLower msg).data = true →
      pf.2 ∈ requested_schedule_fields msg) := by
  refine ⟨?_, ?_, ?_⟩
  · unfold requested_schedule_fields _PATTERNS_TO_FIELDS
    rw [fieldsTable_step, fieldsTable_step, fieldsTable_step, fieldsTable_step,
      fieldsTable_step, fieldsTable_step, fieldsTable_step]
    simp [List.append_assoc]
  · unfold requested_schedule_fields
    have h : List.Sublist
        (_PATTERNS_TO_FIELDS.filter (fun pf => pf.1 (pyLower msg).data))
        _PATTERNS_TO_FIELDS := List.filter_sublist _PATTERNS_TO_FIELDS
    have h2 := h.map (fun pf => pf.2)
    exact h2
  · intro pf hpf hmatch
    show pf.2 ∈ (_PATTERNS_TO_FIELDS.filter (fun q => q.1 (pyLower msg).data)).map
      (fun q => q.2)
    exact List.mem_map.mpr ⟨pf, List.mem_filter.mpr ⟨hpf, hmatch⟩, rfl⟩

/-- Witness for C3's completeness clause at a concrete message and a
concrete table entry. -/
theorem C3_witness :
    "midterms_window" ∈ requested_schedule_fields "when are midterms" :=
  (C3_fields_characterization "when are midterms").2.2
    (patMidterm, "midterms_window")
    (by unfold _PATTERNS_TO_FIELDS; exact List.mem_cons_self _ _)
    (by decide)

/-- C10: the course-code pattern is matched against the raw message
case-sensitively.  Any message it matches gets the fixed-refusal scheduler
prompt; concretely, `"When is the DS201 final?"` gets the refusal prompt
while the same message with the code lowercased (no day reference, no
class-schedule phrase) gets the field-targeted prompt for
`finals_window`. -/
theorem C10_course_code_case_sensitive :
    (∀ message : String, courseCodeSearch message.data = true →
      scheduler_prompt message = schedRefusalPrompt) ∧
    has_schedule_intent "When is the DS201 final?" = true ∧
    courseCodeSearch "When is the DS201 final?".data = true ∧
    scheduler_prompt "When is the DS201 final?" = schedRefusalPrompt ∧
    courseCodeSearch "When is the ds201 final?".data = false ∧
    scheduler_prompt "When is the ds201 final?" = schedFieldsPrompt "finals_window" := by
  have hgen : ∀ message : String, courseCodeSearch message.data = true →
      scheduler_prompt message = schedRefusalPrompt := by
    intro message h
    have hw : wantsSpecificScheduleItem message = true := by
      unfold wantsSpecificScheduleItem
      rw [h]
      simp
    unfold scheduler_prompt
    rw [hw]
    simp
  refine ⟨hgen, by decide, by decide, ?_, by decide, ?_⟩
  · decide
  · decide

/-- Witness for C10's general clause at a fresh concrete message. -/
theorem C10_witness :
    scheduler_prompt "is MATH101 scheduled" = schedRefusalPrompt :=
  C10_course_code_case_sensitive.1 "is MATH101 scheduled" (by decide)

/-- C2 counterexample: a campus poem request with no explicit schedule ask,
with the router label "scheduler" (a label the triage capability may
return): the router seed keeps the scheduler in the plan, so the scheduler
key is not absent. -/
theorem C2_counterexample :
    has_poem_intent "write a haiku about campus" = true ∧
    poem_is_campus "write a haiku about campus" = true ∧
    explicitScheduleAsk "write a haiku about campus" = false ∧
    build_plan "scheduler" "write a haiku about campus" = ["poet", "scheduler"] := by
  refine ⟨by decide, by decide, by decide, by decide⟩

/-- C2 amended: for a campus poem request with no explicit schedule ask
the plan starts with the poet key, and the scheduler key occurs in the
plan exactly when the router label (stripped and lowercased) is the
scheduler key — the schedule step itself never appends it. -/
theorem C2_poem_only_plan (triageOutput message : String)
    (hp : has_poem_intent message = true) (hc : poem_is_campus message = true)
    (he : explicitScheduleAsk message = false) :
    (build_plan triageOutput message).head? = some "poet" ∧
    ("scheduler" ∈ build_plan triageOutput message ↔
      pyLower (pyStrip triageOutput) = "scheduler") := by
  have hss : schedStepAppends message = false := by
    unfold schedStepAppends
    rw [he]
    simp
  have hpoet : "poet" ∈ rawPlan triageOutput message := by
    unfold rawPlan
    simp [hp, hc]
  have hsched : "scheduler" ∈ rawPlan triageOutput message ↔
      pyLower (pyStrip triageOutput) = "scheduler" := by
    unfold rawPlan
    simp only [hp, hc, hss, Bool.and_self, if_true, if_false, Bool.false_eq_true,
      List.append_nil, List.mem_append]
    constructor
    · intro hmem
      rcases hmem with (hseed | hpt) | hadv
      · revert hseed
        split
        · intro hseed
          simp only [List.mem_singleton] at hseed
          exact hseed.symm
        · intro hseed; simp at hseed
      · simp at hpt
      · revert hadv
        split <;> intro hadv <;> simp at hadv
    · intro hlab
      left; left
      rw [← hlab]
      have : AGENT_KEYS.contains (pyLower (pyStrip triageOutput)) = true := by
        rw [hlab]; decide
      rw [if_pos this]
      simp
  rw [build_plan_eq_filter]
  constructor
  · have hpc : (rawPlan triageOutput message).contains "poet" = true :=
      contains_iff_mem.mpr hpoet
    show (List.filter _ ("poet" :: ["scheduler", "advisor"])).head? = some "poet"
    rw [List.filter_cons]
    simp [hpoet]
  · rw [List.mem_filter]
    rw [contains_iff_mem]
    simp only [show ("scheduler" ∈ AGENT_KEYS) by decide, true_and]
    exact hsched

/-- Witness for C2's amended statement at a concrete message and two
concrete router labels. -/
theorem C2_witness :
    (build_plan "advisor" "write a haiku about campus").head? = some "poet" ∧
    ("scheduler" ∈ build_plan "advisor" "write a haiku about campus" ↔
      pyLower (pyStrip "advisor") = "scheduler") :=
  C2_poem_only_plan "advisor" "write a haiku about campus"
    (by decide) (by decide) (by decide)

/-- C5 counterexample: "hello" carries no recognized signal, yet with the
router label "poet" (a label the triage capability may return) the plan is
`["poet"]`, not `["advisor"]`. -/
theorem C5_counterexample :
    has_course_intent "hello" = false ∧
    has_schedule_intent "hello" = false ∧
    has_poem_intent "hello" = false ∧
    has_summary_intent "hello" = false ∧
    build_plan "poet" "hello" = ["poet"] := by
  refine ⟨by decide, by decide, by decide, by decide, by decide⟩

/-- C5 amended: on a message with no recognized signal the plan is the
singleton router label when that (stripped, lowercased) label is a known
specialist key, and the advisor fallback `["advisor"]` otherwise. -/
theorem C5_no_signal_plan (triageOutput message : String)
    (hco : has_course_intent message = false)
    (hs : has_schedule_intent message = false)
    (hp : has_poem_intent message = false)
    (hsu : has_summary_intent message = false) :
    build_plan triageOutput message =
      (if AGENT_KEYS.contains (pyLower (pyStrip triageOutput))
       then [pyLower (pyStrip triageOutput)] else ["advisor"]) := by
  have hss : schedStepAppends message = false := by
    unfold schedStepAppends
    rw [hs]
    simp
  have hraw : rawPlan triageOutput message =
      (if AGENT_KEYS.contains (pyLower (pyStrip triageOutput))
       then [pyLower (pyStrip triageOutput)] else ["advisor"]) := by
    unfold rawPlan
    simp only [hp, hss, hco, Bool.false_and, if_false, Bool.false_eq_true,
      List.append_nil, List.nil_append]
    split
    · simp
    · simp
  unfold build_plan
  rw [hraw]
  split
  · simp [pydedup, pydedupAux, sortPlan, List.insertionSort, List.orderedInsert]
  · simp [pydedup, pydedupAux, sortPlan, List.insertionSort, List.orderedInsert]

/-- Witness for C5's amended statement at a concrete message and label. -/
theorem C5_witness :
    build_plan "  Poet " "hello" =
      (if AGENT_KEYS.contains (pyLower (pyStrip "  Poet "))
       then [pyLower (pyStrip "  Poet ")] else ["advisor"]) :=
  C5_no_signal_plan "  Poet " "hello" (by decide) (by decide) (by decide) (by decide)

/-- C4 counterexample: neither normalizer is idempotent.  A second
application strips a further bullet layer (`"- - x"` → `"- x"` → `"x"`)
respectively a further bold layer (`"****x****"` → `"**x**"` → `"x"`). -/
theorem C4_counterexample :
    textNormalizer_scheduler (textNormalizer_scheduler "- - x") ≠
      textNormalizer_scheduler "- - x" ∧
    textNormalizer_advisor (textNormalizer_advisor "****x****") ≠
      textNormalizer_advisor "****x****" := by
  have h1 : textNormalizer_scheduler "- - x" = "- x" := by
    simp [textNormalizer_scheduler, subMdLabelAux, tryMdLabel, mdGroup,
      subBulletsAux, tryBullet, pyStripL, dashMap, pySpace]
  have h2 : textNormalizer_scheduler "- x" = "x" := by
    simp [textNormalizer_scheduler, subMdLabelAux, tryMdLabel, mdGroup,
      subBulletsAux, tryBullet, pyStripL, dashMap, pySpace]
  have h3 : textNormalizer_advisor "****x****" = "**x**" := by
    simp [textNormalizer_advisor, subCodeFenceAux, tryFence1, tryFence2,
      splitAtLastNl, subBoldAux, boldGroup, pyStripL, pySpace]
  have h4 : textNormalizer_advisor "**x**" = "x" := by
    simp [textNormalizer_advisor, subCodeFenceAux, tryFence1, tryFence2,
      splitAtLastNl, subBoldAux, boldGroup, pyStripL, pySpace]
  constructor
  · rw [h1, h2]; decide
  · rw [h3, h4]; decide

/-- Without a hyphen in the text the bold-label pattern cannot match. -/
theorem tryMdLabel_none_of_no_dash {l : List Char} (h : '-' ∉ l) :
    tryMdLabel l = none := by
  have hh : (l.dropWhile pySpace).head? ≠ some '-' := by
    intro hc
    apply h
    have hmem : '-' ∈ l.dropWhile pySpace := by
      cases hd : l.dropWhile pySpace with
      | nil => rw [hd] at hc; exact absurd hc (by simp)
      | cons a as =>
        rw [hd] at hc
        simp only [List.head?_cons, Option.some.injEq] at hc
        exact hc ▸ List.mem_cons_self a as
    exact (List.dropWhile_sublist pySpace).subset hmem
  simp only [tryMdLabel]
  rw [if_neg hh]

/-- Without a hyphen in the text the bullet pattern cannot match. -/
theorem tryBullet_none_of_no_dash {l : List Char} (h : '-' ∉ l) :
    tryBullet l = none := by
  have hh : (l.dropWhile pySpace).head? ≠ some '-' := by
    intro hc
    apply h
    have hmem : '-' ∈ l.dropWhile pySpace := by
      cases hd : l.dropWhile pySpace with
      | nil => rw [hd] at hc; exact absurd hc (by simp)
      | cons a as =>
        rw [hd] at hc
        simp only [List.head?_cons, Option.some.injEq] at hc
        exact hc ▸ List.mem_cons_self a as
    exact (List.dropWhile_sublist pySpace).subset hmem
  simp only [tryBullet]
  rw [if_neg hh]

/-- The bold-label substitution is the identity on hyphen-free text. -/
theorem subMdLabelAux_id : ∀ (l : List Char) (bol : Bool), '-' ∉ l →
    subMdLabelAux bol l = l := by
  intro l
  induction l with
  | nil => intro bol h; rw [subMdLabelAux]
  | cons c cs ih =>
    intro bol h
    have hcs : '-' ∉ cs := fun hm => h (List.mem_cons_of_mem c hm)
    have hn : tryMdLabel (c :: cs) = none := tryMdLabel_none_of_no_dash h
    rw [subMdLabelAux]
    split
    · split
      · rename_i heq
        rw [hn] at heq
        exact absurd heq (by simp)
      · rw [ih _ hcs]
    · rw [ih _ hcs]

/-- The bullet substitution is the identity on hyphen-free text. -/
theorem subBulletsAux_id : ∀ (l : List Char) (bol : Bool), '-' ∉ l →
    subBulletsAux bol l = l := by
  intro l
  induction l with
  | nil => intro bol h; rw [subBulletsAux]
  | cons c cs ih =>
    intro bol h
    have hcs : '-' ∉ cs := fun hm => h (List.mem_cons_of_mem c hm)
    have hn : tryBullet (c :: cs) = none := tryBullet_none_of_no_dash h
    rw [subBulletsAux]
    split
    · split
      · rename_i heq
        rw [hn] at heq
        exact absurd heq (by simp)
      · rw [ih _ hcs]
    · rw [ih _ hcs]

/-- The dash translation is the identity on text without en/em dashes. -/
theorem map_dashMap_id : ∀ (l : List Char), '–' ∉ l → '—' ∉ l →
    l.map dashMap = l := by
  intro l
  induction l with
  | nil => intro _ _; rfl
  | cons c cs ih =>
    intro h1 h2
    have hc1 : c ≠ '–' := fun he => h1 (he ▸ List.mem_cons_self c cs)
    have hc2 : c ≠ '—' := fun he => h2 (he ▸ List.mem_cons_self c cs)
    have hcs1 : '–' ∉ cs := fun hm => h1 (List.mem_cons_of_mem c hm)
    have hcs2 : '—' ∉ cs := fun hm => h2 (List.mem_cons_of_mem c hm)
    simp only [List.map_cons, ih hcs1 hcs2]
    unfold dashMap
    rw [if_neg hc1, if_neg hc2]

/-- Elements of a `takeWhile` satisfy its predicate. -/
theorem mem_takeWhile_pred {p : Char → Bool} {x : Char} :
    ∀ {l : List Char}, x ∈ l.takeWhile p → p x = true := by
  intro l
  induction l with
  | nil => intro hx; simp [List.takeWhile] at hx
  | cons c cs ih =>
    intro hx
    rw [List.takeWhile_cons] at hx
    by_cases hp : p c
    · rw [if_pos hp] at hx
      rcases List.mem_cons.mp hx with he | hm
      · exact he ▸ hp
      · exact ih hm
    · rw [if_neg hp] at hx
      simp at hx

/-- Without a backtick in the text the line-fence alternative cannot
match. -/
theorem tryFence1_none_of_no_tick {l : List Char} (h : '`' ∉ l) :
    tryFence1 l = none := by
  have hcond : ¬ (3 ≤ ((l.dropWhile pySpace).takeWhile (fun c => c == '`')).length) := by
    intro h3
    have hne : ((l.dropWhile pySpace).takeWhile (fun c => c == '`')) ≠ [] := by
      intro hnil; rw [hnil] at h3; simp at h3
    rcases List.exists_mem_of_ne_nil _ hne with ⟨x, hx⟩
    have hx1 := mem_takeWhile_pred hx
    have hx2 : x ∈ l :=
      (List.dropWhile_sublist pySpace).subset ((List.takeWhile_sublist _).subset hx)
    rw [beq_iff_eq] at hx1
    exact h (hx1 ▸ hx2)
  simp only [tryFence1]
  rw [if_neg hcond]

/-- Without a backtick in the text the anywhere-fence alternative cannot
match. -/
theorem tryFence2_none_of_no_tick {l : List Char} (h : '`' ∉ l) :
    tryFence2 l = none := by
  have hcond : ¬ (3 ≤ (l.takeWhile (fun c => c == '`')).length) := by
    intro h3
    have hne : (l.takeWhile (fun c => c == '`')) ≠ [] := by
      intro hnil; rw [hnil] at h3; simp at h3
    rcases List.exists_mem_of_ne_nil _ hne with ⟨x, hx⟩
    have hx1 := mem_takeWhile_pred hx
    have hx2 : x ∈ l := (List.takeWhile_sublist _).subset hx
    rw [beq_iff_eq] at hx1
    exact h (hx1 ▸ hx2)
  simp only [tryFence2]
  rw [if_neg hcond]

/-- The code-fence substitution is the identity on backtick-free text. -/
theorem subCodeFenceAux_id : ∀ (l : List Char) (bol : Bool), '`' ∉ l →
    subCodeFenceAux bol l = l := by
  intro l
  induction l with
  | nil => intro bol h; rw [subCodeFenceAux]
  | cons c cs ih =>
    intro bol h
    have hcs : '`' ∉ cs := fun hm => h (List.mem_cons_of_mem c hm)
    have h1 : tryFence1 (c :: cs) = none := tryFence1_none_of_no_tick h
    have h2 : tryFence2 (c :: cs) = none := tryFence2_none_of_no_tick h
    rw [subCodeFenceAux]
    split
    · split
      · rename_i heq
        rw [h1] at heq
        exact absurd heq (by simp)
      · split
        · rename_i heq
          rw [h2] at heq
          exact absurd heq (by simp)
        · rw [ih _ hcs]
    · split
      · rename_i heq
        rw [h2] at heq
        exact absurd heq (by simp)
      · rw [ih _ hcs]

/-- The bold substitution is the identity on asterisk-free text. -/
theorem subBoldAux_id : ∀ (l : List Char), '*' ∉ l → subBoldAux l = l := by
  intro l
  induction l with
  | nil => intro _; rw [subBoldAux]
  | cons c cs ih =>
    intro h
    have hc : c ≠ '*' := fun he => h (he ▸ List.mem_cons_self c cs)
    have hcs : '*' ∉ cs := fun hm => h (List.mem_cons_of_mem c hm)
    rw [subBoldAux.eq_def]
    split
    · rename_i heq
      exact absurd heq (by simp)
    · rename_i c' cs' heq
      rw [List.cons.injEq] at heq
      exact absurd heq.1 hc
    · rename_i c2 a hno heq
      rw [List.cons.injEq] at heq
      rw [← heq.1, ← heq.2, ih hcs]

/-- `pyStripL` is right-trimming after left-trimming. -/
theorem pyStripL_eq_rdrop (l : List Char) :
    pyStripL l = List.rdropWhile pySpace (l.dropWhile pySpace) := rfl

/-- Stripping is idempotent. -/
theorem pyStripL_idem (l : List Char) : pyStripL (pyStripL l) = pyStripL l := by
  rw [pyStripL_eq_rdrop, pyStripL_eq_rdrop]
  have hA : (List.rdropWhile pySpace (l.dropWhile pySpace)).dropWhile pySpace =
      List.rdropWhile pySpace (l.dropWhile pySpace) := by
    cases hR : List.rdropWhile pySpace (l.dropWhile pySpace) with
    | nil => simp
    | cons a as =>
      rw [List.dropWhile_cons]
      have hpre : List.IsPrefix (List.rdropWhile pySpace (l.dropWhile pySpace))
          (l.dropWhile pySpace) := List.rdropWhile_prefix _ _
      rw [hR] at hpre
      rcases hpre with ⟨t, ht⟩
      have hsome : (l.dropWhile pySpace).head? = some a := by
        rw [← ht]; simp
      have ha : pySpace a = false := by
        have h5 := List.head?_dropWhile_not pySpace l
        rw [hsome] at h5
        exact h5
      rw [ha]
      simp
  rw [hA, List.rdropWhile_idempotent]

/-- Stripping only removes characters. -/
theorem pyStripL_subset (l : List Char) : ∀ x ∈ pyStripL l, x ∈ l := by
  intro x hx
  rw [pyStripL_eq_rdrop] at hx
  have h1 : List.IsPrefix (List.rdropWhile pySpace (l.dropWhile pySpace))
      (l.dropWhile pySpace) := List.rdropWhile_prefix _ _
  exact (List.dropWhile_sublist pySpace).subset (h1.sublist.subset hx)

/-- C4 amended: on strings without hyphen/en-dash/em-dash characters the
scheduler normalizer reduces to stripping and applying it twice equals
applying it once, and on strings without asterisks or backticks the same
holds for the advisor normalizer; idempotence fails in general (see the
counterexample). -/
theorem C4_normalizer_restricted_idem (s : String) :
    (('-' ∉ s.data ∧ '–' ∉ s.data ∧ '—' ∉ s.data) →
      textNormalizer_scheduler (textNormalizer_scheduler s) =
        textNormalizer_scheduler s) ∧
    (('*' ∉ s.data ∧ '`' ∉ s.data) →
      textNormalizer_advisor (textNormalizer_advisor s) =
        textNormalizer_advisor s) := by
  constructor
  · rintro ⟨h1, h2, h3⟩
    by_cases hs : s = ""
    · subst hs; rfl
    · have hnorm : textNormalizer_scheduler s = ⟨pyStripL s.data⟩ := by
        unfold textNormalizer_scheduler
        rw [if_neg hs]
        simp only [subMdLabelAux_id s.data true h1, subBulletsAux_id s.data true h1,
          map_dashMap_id s.data h2 h3]
      rw [hnorm]
      by_cases h0 : (⟨pyStripL s.data⟩ : String) = ""
      · rw [h0]
        rfl
      · have hd1 : '-' ∉ (⟨pyStripL s.data⟩ : String).data :=
          fun hm => h1 (pyStripL_subset _ _ hm)
        have hd2 : '–' ∉ (⟨pyStripL s.data⟩ : String).data :=
          fun hm => h2 (pyStripL_subset _ _ hm)
        have hd3 : '—' ∉ (⟨pyStripL s.data⟩ : String).data :=
          fun hm => h3 (pyStripL_subset _ _ hm)
        unfold textNormalizer_scheduler
        rw [if_neg h0]
        simp only [subMdLabelAux_id (⟨pyStripL s.data⟩ : String).data true hd1,
          subBulletsAux_id (⟨pyStripL s.data⟩ : String).data true hd1,
          map_dashMap_id (⟨pyStripL s.data⟩ : String).data hd2 hd3]
        show (⟨pyStripL (pyStripL s.data)⟩ : String) = ⟨pyStripL s.data⟩
        rw [pyStripL_idem]
  · rintro ⟨h1, h2⟩
    by_cases hs : s = ""
    · subst hs; rfl
    · have hnorm : textNormalizer_advisor s = ⟨pyStripL s.data⟩ := by
        unfold textNormalizer_advisor
        rw [if_neg hs]
        simp only [subCodeFenceAux_id s.data true h2, subBoldAux_id s.data h1]
      rw [hnorm]
      by_cases h0 : (⟨pyStripL s.data⟩ : String) = ""
      · rw [h0]
        rfl
      · have hd1 : '*' ∉ (⟨pyStripL s.data⟩ : String).data :=
          fun hm => h1 (pyStripL_subset _ _ hm)
        have hd2 : '`' ∉ (⟨pyStripL s.data⟩ : String).data :=
          fun hm => h2 (pyStripL_subset _ _ hm)
        unfold textNormalizer_advisor
        rw [if_neg h0]
        simp only [subCodeFenceAux_id (⟨pyStripL s.data⟩ : String).data true hd2,
          subBoldAux_id (⟨pyStripL s.data⟩ : String).data hd1]
        show (⟨pyStripL (pyStripL s.data)⟩ : String) = ⟨pyStripL s.data⟩
        rw [pyStripL_idem]

/-- Witness for C4's amended statement on a concrete marker-free string. -/
theorem C4_witness :
    textNormalizer_scheduler (textNormalizer_scheduler "  hi there  ") =
      textNormalizer_scheduler "  hi there  " ∧
    textNormalizer_advisor (textNormalizer_advisor "  hi there  ") =
      textNormalizer_advisor "  hi there  " :=
  ⟨(C4_normalizer_restricted_idem "  hi there  ").1 (by decide),
   (C4_normalizer_restricted_idem "  hi there  ").2 (by decide)⟩
